import Mathlib

/-!
Shallow embedding of the Turing-machine simulator (`Turing.py`):
`TuringCommand` (one transition rule), `TuringState` (tape, head
position, storage offset and control state), `TuringMachine` (the
transition table, its parser, `single_step` and `run`).  Python list
indexing (including negative indices) and `str.split` on a single
character are modelled explicitly; exceptions become `Except` values
and the non-terminating `run` loop becomes a fuel-indexed function.
-/

set_option maxHeartbeats 1000000

set_option linter.unusedVariables false

/-- Blank symbol used when the tape grows (`EMPTY = "b"` in the source). -/
def EMPTY : String := "b"

/-- Default start state of the machine (`START_STATE = "Q0"`). -/
def START_STATE : String := "Q0"

/-- Head-move code for a left move (`L = -1`). -/
def L : Int := -1

/-- Head-move code for a right move (`R = 1`). -/
def R : Int := 1

/-- Head-move code for staying put (`S = 0`). -/
def S : Int := 0

/-- Python list read `l[i]`: a non-negative index counts from the front,
a negative index counts from the back, and an out-of-range index raises
`IndexError`, modelled as `none`. -/
def pyGet (l : List String) (i : Int) : Option String :=
  if 0 ≤ i then l.get? i.toNat
  else if 0 ≤ i + l.length then l.get? (i + l.length).toNat
  else none

/-- Python list write `l[i] = x`, with the same index rules as `pyGet`;
`none` models an `IndexError`. -/
def pySet (l : List String) (i : Int) (x : String) : Option (List String) :=
  if 0 ≤ i then
    if i < (l.length : Int) then some (l.set i.toNat x) else none
  else if 0 ≤ i + l.length then some (l.set (i + l.length).toNat x)
  else none

/-- Core of Python `str.split(sep)` for a one-character separator, on the
character list: every occurrence of the separator ends a field, empty
fields are kept, and the empty input yields one empty field. -/
def splitChar (sep : Char) : List Char → List (List Char)
  | [] => [[]]
  | c :: rest =>
    if c = sep then [] :: splitChar sep rest
    else
      match splitChar sep rest with
      | [] => [[c]]
      | h :: t => (c :: h) :: t

/-- Python `text.split(sep)` for a one-character separator. -/
def pySplit (text : String) (sep : Char) : List String :=
  (splitChar sep text.toList).map (fun cs => String.mk cs)

/-- One command of the transition table: on `(inp_state, inp_symbol)`
write `ret_symbol`, go to `ret_state` and move the head by `ret_move`. -/
structure TuringCommand where
  inp_state : String
  inp_symbol : String
  ret_state : String
  ret_symbol : String
  ret_move : Int
deriving DecidableEq, Repr

/-- Message of the `ValueError` raised by `__post_init__` when
`inp_symbol` does not have length one. -/
def inpSymbolLenMsg (sym : String) : String :=
  "Symbols need to have length one, but inp_symbol is " ++ sym ++
    " with length " ++ toString sym.length ++ "."

/-- Message of the `ValueError` raised by `__post_init__` when
`ret_symbol` does not have length one. -/
def retSymbolLenMsg (sym : String) : String :=
  "Symbols need to have length one, but ret_symbol is " ++ sym ++
    " with length " ++ toString sym.length ++ "."

/-- Message of the `ValueError` raised by `__post_init__` when
`ret_move` is not one of `L`, `R`, `S`. -/
def retMoveMsg (m : Int) : String :=
  "ret_moves needs to be either L=-1, R=1 or S=0, but is " ++ toString m ++ "."

/-- Constructing a `TuringCommand` through the dataclass constructor:
`__post_init__` validates the two symbol lengths and the move code and
raises `ValueError` (modelled as `.error msg`) on a violation. -/
def mkCommand (inp_state inp_symbol ret_state ret_symbol : String)
    (ret_move : Int) : Except String TuringCommand :=
  if inp_symbol.length ≠ 1 then .error (inpSymbolLenMsg inp_symbol)
  else if ret_symbol.length ≠ 1 then .error (retSymbolLenMsg ret_symbol)
  else if ret_move ∈ [L, R, S] then
    .ok ⟨inp_state, inp_symbol, ret_state, ret_symbol, ret_move⟩
  else .error (retMoveMsg ret_move)

/-- The validity invariant `__post_init__` enforces on every
`TuringCommand` that exists at run time. -/
def TuringCommand.Valid (c : TuringCommand) : Prop :=
  c.inp_symbol.length = 1 ∧ c.ret_symbol.length = 1 ∧
    (c.ret_move = L ∨ c.ret_move = R ∨ c.ret_move = S)

instance (c : TuringCommand) : Decidable c.Valid := by
  unfold TuringCommand.Valid
  infer_instance

/-- Message of Python's unpack `ValueError` when a line does not split
into exactly five fields (`n` is the actual field count). -/
def unpackMsg (n : Nat) : String :=
  if n < 5 then "not enough values to unpack (expected 5, got " ++ toString n ++ ")"
  else "too many values to unpack (expected 5)"

/-- Message of the `ValueError` raised by `TuringCommand.parse` for an
unrecognized move code `tok` found in the line `line`. -/
def moveErrorMsg (tok line : String) : String :=
  "The move of a command needs to be saved as either \x27L\x27, \x27R\x27 or \x27S\x27, " ++
    "but tried to parse \x27" ++ tok ++ "\x27 in command \x27" ++ line ++ "\x27."

/-- `TuringCommand.parse`: split the line on single spaces into exactly
five fields (an unpack `ValueError` otherwise), decode the move code
(`ValueError` on anything but `L`, `R`, `S`), then construct the command
(which re-validates via `__post_init__`). -/
def TuringCommand.parse (text : String) : Except String TuringCommand :=
  match pySplit text ' ' with
  | [inp_state, inp_symbol, ret_state, ret_symbol, ret_move_str] =>
    match ret_move_str with
    | "L" => mkCommand inp_state inp_symbol ret_state ret_symbol L
    | "R" => mkCommand inp_state inp_symbol ret_state ret_symbol R
    | "S" => mkCommand inp_state inp_symbol ret_state ret_symbol S
    | _ => .error (moveErrorMsg ret_move_str text)
  | parts => .error (unpackMsg parts.length)

/-- Execution state of the machine: the physical tape, the logical head
`position`, the `offset` translating logical to physical indices, and
the current control `state`. -/
structure TuringState where
  tape : List String
  position : Int
  offset : Int
  state : String
deriving DecidableEq, Repr

/-- `TuringState.symbol`: the symbol at `tape[position + offset]`,
with Python indexing. -/
def TuringState.symbol (ts : TuringState) : Option String :=
  pyGet ts.tape (ts.position + ts.offset)

/-- The bounds invariant asserted by `execute_command`:
`0 <= position + offset < len(tape)`. -/
def BoundsInv (ts : TuringState) : Prop :=
  0 ≤ ts.position + ts.offset ∧ ts.position + ts.offset < (ts.tape.length : Int)

instance (ts : TuringState) : Decidable (BoundsInv ts) := by
  unfold BoundsInv
  infer_instance

/-- Runtime errors of `execute_command` / `single_step` / `run`, one
constructor per raise site: Python `IndexError` from tape indexing, the
two `ValueError`s for a state or symbol mismatch (carrying the required
and the actual value), and `AssertionError` from the bounds assert. -/
inductive RunErr where
  | indexError : RunErr
  | stateMismatch (required current : String) : RunErr
  | symbolMismatch (required current : String) : RunErr
  | assertionError : RunErr
deriving DecidableEq, Repr

/-- Whether a runtime error is one of the two precondition-mismatch
`ValueError`s of `execute_command`. -/
def RunErr.isMismatch : RunErr → Bool
  | .stateMismatch _ _ => true
  | .symbolMismatch _ _ => true
  | _ => false

/-- The `assert 0 <= self.position + self.offset < len(self.tape)` at
the end of `execute_command`: return the state or raise
`AssertionError`. -/
def checkInv (ts : TuringState) : Except RunErr TuringState :=
  if BoundsInv ts then .ok ts else .error .assertionError

/-- `TuringState.execute_command`: check the state then the symbol
precondition, write `ret_symbol` under the head, enter `ret_state`,
move the head, grow the tape by one blank at whichever end the head has
left (bumping `offset` on left growth), and finally assert the bounds
invariant. -/
def TuringState.execute_command (ts : TuringState) (command : TuringCommand) :
    Except RunErr TuringState :=
  if ts.state = command.inp_state then
    match ts.symbol with
    | none => .error .indexError
    | some sym =>
      if sym = command.inp_symbol then
        match pySet ts.tape (ts.position + ts.offset) command.ret_symbol with
        | none => .error .indexError
        | some tape1 =>
          let position1 := ts.position + command.ret_move
          if position1 + ts.offset < 0 then
            checkInv ⟨EMPTY :: tape1, position1, ts.offset + 1, command.ret_state⟩
          else if (tape1.length : Int) ≤ position1 + ts.offset then
            checkInv ⟨tape1 ++ [EMPTY], position1, ts.offset, command.ret_state⟩
          else
            checkInv ⟨tape1, position1, ts.offset, command.ret_state⟩
      else .error (.symbolMismatch command.inp_symbol sym)
  else .error (.stateMismatch command.inp_state ts.state)

/-- The Python `dict` holding the program, as its association list. -/
abbrev PyDict := List ((String × String) × TuringCommand)

/-- Python `dict` lookup: the most recently inserted binding of a key
wins. -/
def dictGet (d : PyDict) (k : String × String) : Option TuringCommand :=
  match d with
  | [] => none
  | p :: rest =>
    match dictGet rest k with
    | some v => some v
    | none => if p.1 = k then some p.2 else none

/-- Python `dict` insertion `d[k] = v`, recorded at the end so that the
later binding wins on lookup. -/
def dictInsert (d : PyDict) (k : String × String) (v : TuringCommand) : PyDict :=
  d ++ [(k, v)]

/-- `TuringMachine`: the parsed program, a mapping
`(state, symbol) -> TuringCommand`. -/
structure TuringMachine where
  programm : PyDict
deriving DecidableEq

/-- Loop of `TuringMachine.parse`: process the lines in order, skip
empty lines, parse every other line and insert the command under its
`(inp_state, inp_symbol)` key; a `ValueError` from a line aborts the
whole parse. -/
def parseLines : List String → PyDict → Except String PyDict
  | [], programm => .ok programm
  | line :: rest, programm =>
    if line.length ≠ 0 then
      match TuringCommand.parse line with
      | .error e => .error e
      | .ok command =>
        parseLines rest (dictInsert programm (command.inp_state, command.inp_symbol) command)
    else parseLines rest programm

/-- `TuringMachine.parse`: split the text into lines and build the
program table. -/
def TuringMachine.parse (text : String) : Except String TuringMachine :=
  match parseLines (pySplit text '\n') [] with
  | .ok programm => .ok ⟨programm⟩
  | .error e => .error e

/-- `TuringMachine.single_step`: read the symbol under the head, look
up `(state, symbol)` in the program; if absent return `false` without
touching the state, otherwise execute the found command and return
`true`. -/
def TuringMachine.single_step (tm : TuringMachine) (ts : TuringState) :
    Except RunErr (TuringState × Bool) :=
  match ts.symbol with
  | none => .error .indexError
  | some symbol =>
    match dictGet tm.programm (ts.state, symbol) with
    | some command =>
      match ts.execute_command command with
      | .ok ts' => .ok (ts', true)
      | .error e => .error e
    | none => .ok (ts, false)

/-- The `while` loop of `TuringMachine.run`, indexed by fuel: `none`
means the fuel ran out before the machine halted. -/
def runFuel (tm : TuringMachine) (ts : TuringState) : Nat → Option (Except RunErr TuringState)
  | 0 => none
  | n + 1 =>
    match tm.single_step ts with
    | .error e => some (.error e)
    | .ok (ts', true) => runFuel tm ts' n
    | .ok (ts', false) => some (.ok ts')

/-- `TuringMachine.run`: build the initial `TuringState` with
`position = 0` and `offset = 0`, iterate `single_step` until it returns
`false`, and return the final tape and state.  `debug_strength` only
controls `print` calls in the source and is ignored.  `fuel` bounds the
number of loop iterations in this model. -/
def TuringMachine.run (tm : TuringMachine) (tape : List String) (start_state : String)
    (debug_strength : Int) (fuel : Nat) : Option (Except RunErr (List String × String)) :=
  match runFuel tm ⟨tape, 0, 0, start_state⟩ fuel with
  | some (.ok ts) => some (.ok (ts.tape, ts.state))
  | some (.error e) => some (.error e)
  | none => none

/-- Validity of a stored program table: every binding's command was
built by the dataclass constructor (so satisfies `Valid`) and sits
under its own `(inp_state, inp_symbol)` key — the Program invariant of
the data model. -/
def TuringMachine.WF (tm : TuringMachine) : Prop :=
  ∀ p ∈ tm.programm, p.2.inp_state = p.1.1 ∧ p.2.inp_symbol = p.1.2 ∧ p.2.Valid

instance (tm : TuringMachine) : Decidable tm.WF := by
  unfold TuringMachine.WF
  exact List.decidableBAll _ _

deriving instance DecidableEq for Except

/-- A one-rule machine used as a concrete example: in state `Q0`
reading `"1"` it writes `"1"`, stays put and enters `Q1`. -/
def exampleMachine : TuringMachine :=
  TuringMachine.mk [(("Q0", "1"), TuringCommand.mk "Q0" "1" "Q1" "1" 0)]

/-- `pySet` at an in-range non-negative index is a plain `List.set`. -/
theorem pySet_of_bounds (l : List String) (i : Int) (x : String)
    (h0 : 0 ≤ i) (h1 : i < (l.length : Int)) :
    pySet l i x = some (l.set i.toNat x) := by
  rw [pySet, if_pos h0, if_pos h1]

/-- `pyGet` at an in-range non-negative index returns the element there. -/
theorem pyGet_of_bounds (l : List String) (i : Int)
    (h0 : 0 ≤ i) (h1 : i < (l.length : Int)) :
    ∃ v, pyGet l i = some v := by
  rw [pyGet, if_pos h0]
  have hlt : i.toNat < l.length := by omega
  exact ⟨l.get ⟨i.toNat, hlt⟩, List.get?_eq_get hlt⟩

/-- Case analysis of a successful `execute_command`: under the bounds
invariant, the two precondition hypotheses and a legal move code, the
command succeeds, and the result is exactly one of the three shapes the
source produces: grow left (bumping the offset), grow right, or no
growth. -/
theorem execute_command_ok (ts : TuringState) (c : TuringCommand)
    (hInv : BoundsInv ts) (hst : ts.state = c.inp_state)
    (hsy : ts.symbol = some c.inp_symbol)
    (hm : c.ret_move = L ∨ c.ret_move = R ∨ c.ret_move = S) :
    (ts.position + ts.offset + c.ret_move < 0 ∧
      ts.execute_command c =
        .ok ⟨EMPTY :: ts.tape.set (ts.position + ts.offset).toNat c.ret_symbol,
          ts.position + c.ret_move, ts.offset + 1, c.ret_state⟩) ∨
    ((ts.tape.length : Int) ≤ ts.position + ts.offset + c.ret_move ∧
      ts.execute_command c =
        .ok ⟨ts.tape.set (ts.position + ts.offset).toNat c.ret_symbol ++ [EMPTY],
          ts.position + c.ret_move, ts.offset, c.ret_state⟩) ∨
    (0 ≤ ts.position + ts.offset + c.ret_move ∧
      ts.position + ts.offset + c.ret_move < (ts.tape.length : Int) ∧
      ts.execute_command c =
        .ok ⟨ts.tape.set (ts.position + ts.offset).toNat c.ret_symbol,
          ts.position + c.ret_move, ts.offset, c.ret_state⟩) := by
  obtain ⟨h0, h1⟩ := hInv
  have hm' : c.ret_move = -1 ∨ c.ret_move = 1 ∨ c.ret_move = 0 := by
    simpa [L, R, S] using hm
  have hmb : -1 ≤ c.ret_move ∧ c.ret_move ≤ 1 := by
    rcases hm' with h | h | h <;> simp [h]
  have hset := pySet_of_bounds ts.tape (ts.position + ts.offset) c.ret_symbol h0 h1
  have hlenN : (ts.tape.set (ts.position + ts.offset).toNat c.ret_symbol).length
      = ts.tape.length := by
    simp
  simp only [TuringState.execute_command, if_pos hst, hsy, hset, if_true, hlenN]
  by_cases hneg : ts.position + c.ret_move + ts.offset < 0
  · left
    refine ⟨by omega, ?_⟩
    have hInv1 : BoundsInv ⟨EMPTY :: ts.tape.set (ts.position + ts.offset).toNat c.ret_symbol,
        ts.position + c.ret_move, ts.offset + 1, c.ret_state⟩ := by
      simp only [BoundsInv, List.length_cons, hlenN]
      push_cast
      omega
    rw [if_pos hneg, checkInv, if_pos hInv1]
  · rw [if_neg hneg]
    by_cases hge : (ts.tape.length : Int) ≤ ts.position + c.ret_move + ts.offset
    · right; left
      refine ⟨by omega, ?_⟩
      have hInv2 : BoundsInv ⟨ts.tape.set (ts.position + ts.offset).toNat c.ret_symbol ++ [EMPTY],
          ts.position + c.ret_move, ts.offset, c.ret_state⟩ := by
        simp only [BoundsInv, List.length_append, List.length_cons, List.length_nil, hlenN]
        push_cast
        omega
      rw [if_pos hge, checkInv, if_pos hInv2]
    · right; right
      refine ⟨by omega, by omega, ?_⟩
      have hInv3 : BoundsInv ⟨ts.tape.set (ts.position + ts.offset).toNat c.ret_symbol,
          ts.position + c.ret_move, ts.offset, c.ret_state⟩ := by
        simp only [BoundsInv, hlenN]
        omega
      rw [if_neg hge, checkInv, if_pos hInv3]

/-- A successful `dict` lookup finds a binding stored in the table. -/
theorem dictGet_mem (d : PyDict) (k : String × String) (c : TuringCommand)
    (h : dictGet d k = some c) : (k, c) ∈ d := by
  induction d with
  | nil => simp [dictGet] at h
  | cons p rest ih =>
    rw [dictGet] at h
    rcases hr : dictGet rest k with _ | v
    · simp only [hr] at h
      by_cases hk : p.1 = k
      · rw [if_pos hk] at h
        injection h with h
        obtain ⟨p1, p2⟩ := p
        simp only at hk h
        rw [← hk, ← h]
        exact List.mem_cons_self _ _
      · rw [if_neg hk] at h
        exact absurd h (by simp)
    · simp only [hr] at h
      injection h with h
      exact List.mem_cons_of_mem p (ih (by rw [hr, h]))

/-- `dict` lookup after inserting a fresh binding at the end: the new
binding wins on its own key and is invisible on every other key. -/
theorem dictGet_append (d : PyDict) (k k' : String × String) (v : TuringCommand) :
    dictGet (d ++ [(k', v)]) k = if k' = k then some v else dictGet d k := by
  induction d with
  | nil =>
    by_cases hk : k' = k <;> simp [dictGet, hk]
  | cons p rest ih =>
    rw [List.cons_append, dictGet, ih, dictGet]
    by_cases hk : k' = k
    · simp only [if_pos hk]
    · simp only [if_neg hk]

/-- Once the run loop has produced an answer, extra fuel does not
change it. -/
theorem runFuel_add (tm : TuringMachine) (ts : TuringState) (n k : Nat)
    (r : Except RunErr TuringState) (h : runFuel tm ts n = some r) :
    runFuel tm ts (n + k) = some r := by
  induction n generalizing ts with
  | zero => simp [runFuel] at h
  | succ n ih =>
    rw [runFuel] at h
    rw [show n + 1 + k = (n + k) + 1 by omega, runFuel]
    rcases hs : tm.single_step ts with e | ⟨ts', b⟩
    · simp only [hs] at h ⊢
      exact h
    · rcases b with _ | _
      · simp only [hs] at h ⊢
        exact h
      · simp only [hs] at h ⊢
        exact ih ts' h

/-- `runFuel` is monotone in the fuel argument. -/
theorem runFuel_mono (tm : TuringMachine) (ts : TuringState) (n m : Nat)
    (r : Except RunErr TuringState) (hnm : n ≤ m) (h : runFuel tm ts n = some r) :
    runFuel tm ts m = some r := by
  obtain ⟨k, rfl⟩ := Nat.le.dest hnm
  exact runFuel_add tm ts n k r h

/-- `single_step` answers `false` only by returning the state it was
given, with the lookup having found nothing. -/
theorem single_step_false (tm : TuringMachine) (ts t : TuringState)
    (h : tm.single_step ts = .ok (t, false)) :
    t = ts ∧ ∃ sym, ts.symbol = some sym ∧ dictGet tm.programm (ts.state, sym) = none := by
  rw [TuringMachine.single_step] at h
  rcases hsy : ts.symbol with _ | sym
  · simp only [hsy] at h
    exact absurd h (by simp)
  · simp only [hsy] at h
    rcases hd : dictGet tm.programm (ts.state, sym) with _ | c
    · simp only [hd] at h
      injection h with h
      injection h with h1 h2
      exact ⟨h1.symm, sym, rfl, hd⟩
    · simp only [hd] at h
      rcases he : ts.execute_command c with e | ts'
      · simp only [he] at h
        exact absurd h (by simp)
      · simp only [he] at h
        injection h with h
        injection h with h1 h2
        exact absurd h2 (by simp)

/-- A halted run ends in a state on which `single_step` again answers
`false`. -/
theorem runFuel_halt (tm : TuringMachine) (ts ts' : TuringState) (n : Nat)
    (h : runFuel tm ts n = some (.ok ts')) :
    tm.single_step ts' = .ok (ts', false) := by
  induction n generalizing ts with
  | zero => simp [runFuel] at h
  | succ n ih =>
    rw [runFuel] at h
    rcases hs : tm.single_step ts with e | ⟨t, b⟩
    · simp only [hs] at h
      exact absurd h (by simp)
    · rcases b with _ | _
      · simp only [hs] at h
        injection h with h
        injection h with h
        obtain ⟨ht, -⟩ := single_step_false tm ts t hs
        rw [← h, ht]
        rw [ht] at hs
        exact hs
      · simp only [hs] at h
        exact ih t h

/-- When both preconditions of `execute_command` hold, an error can
only come from tape indexing or from the final assert — never from the
two mismatch branches. -/
theorem execute_command_error_classify (ts : TuringState) (c : TuringCommand) (e : RunErr)
    (hst : ts.state = c.inp_state) (hsy : ts.symbol = some c.inp_symbol)
    (he : ts.execute_command c = .error e) :
    e = .indexError ∨ e = .assertionError := by
  simp only [TuringState.execute_command, if_pos hst, hsy, if_true] at he
  rcases hset : pySet ts.tape (ts.position + ts.offset) c.ret_symbol with _ | tape1
  · simp only [hset] at he
    injection he with he
    exact Or.inl he.symm
  · simp only [hset, checkInv] at he
    repeat' split at he
    all_goals first
      | (injection he with he; exact Or.inr he.symm)
      | injection he

/-- On a well-formed program table, the command found by `single_step`
matches the current state and symbol, so `execute_command` succeeds
whenever the bounds invariant holds. -/
theorem single_step_found (tm : TuringMachine) (ts : TuringState) (sym : String)
    (c : TuringCommand) (hWF : tm.WF) (hInv : BoundsInv ts)
    (hsy : ts.symbol = some sym)
    (hd : dictGet tm.programm (ts.state, sym) = some c) :
    ∃ ts', ts.execute_command c = .ok ts' ∧ tm.single_step ts = .ok (ts', true) := by
  obtain ⟨hst, hsym, hv⟩ := hWF ((ts.state, sym), c) (dictGet_mem _ _ _ hd)
  have hsy' : ts.symbol = some c.inp_symbol := by rw [hsy, hsym]
  rcases execute_command_ok ts c hInv hst.symm hsy' hv.2.2 with
    ⟨-, hok⟩ | ⟨-, hok⟩ | ⟨-, -, hok⟩ <;>
    exact ⟨_, hok, by simp only [TuringMachine.single_step, hsy, hd, hok]⟩

/-- On a well-formed program table, a `single_step` error is never one
of the two precondition-mismatch errors. -/
theorem single_step_error_classify (tm : TuringMachine) (ts : TuringState) (e : RunErr)
    (hWF : tm.WF) (h : tm.single_step ts = .error e) :
    e = .indexError ∨ e = .assertionError := by
  rw [TuringMachine.single_step] at h
  rcases hsy : ts.symbol with _ | sym
  · simp only [hsy] at h
    injection h with h
    exact Or.inl h.symm
  · simp only [hsy] at h
    rcases hd : dictGet tm.programm (ts.state, sym) with _ | c
    · simp only [hd] at h
      exact absurd h (by simp)
    · simp only [hd] at h
      rcases he : ts.execute_command c with e' | ts'
      · simp only [he] at h
        injection h with h
        obtain ⟨hst, hsym, -⟩ := hWF ((ts.state, sym), c) (dictGet_mem _ _ _ hd)
        have hsy' : ts.symbol = some c.inp_symbol := by rw [hsy, hsym]
        rw [← h]
        exact execute_command_error_classify ts c e' hst.symm hsy' he
      · simp only [he] at h
        exact absurd h (by simp)

/-- On a well-formed program table, an error surfaced by the run loop
is never one of the two precondition-mismatch errors. -/
theorem runFuel_error_classify (tm : TuringMachine) (ts : TuringState) (n : Nat) (e : RunErr)
    (hWF : tm.WF) (h : runFuel tm ts n = some (.error e)) :
    e = .indexError ∨ e = .assertionError := by
  induction n generalizing ts with
  | zero => simp [runFuel] at h
  | succ n ih =>
    rw [runFuel] at h
    rcases hs : tm.single_step ts with e' | ⟨t, b⟩
    · simp only [hs] at h
      injection h with h
      injection h with h
      rw [← h]
      exact single_step_error_classify tm ts e' hWF hs
    · rcases b with _ | _
      · simp only [hs] at h
        exact absurd h (by simp)
      · simp only [hs] at h
        exact ih t h

/-- A string is empty exactly when its length is zero. -/
theorem string_length_eq_zero (s : String) : s.length = 0 ↔ s = "" := by
  constructor
  · intro h
    apply String.ext
    have hd : s.data.length = 0 := h
    exact List.length_eq_zero.mp hd
  · intro h
    rw [h]
    rfl

/-- Parsing aborts at the first malformed non-blank line: every earlier
line is blank or parses, so its error is the one the whole parse
reports, whatever table has been accumulated so far. -/
theorem parseLines_first_error (pre : List String) (l : String) (post : List String)
    (e : String)
    (hpre : ∀ p ∈ pre, p = "" ∨ ∃ c, TuringCommand.parse p = .ok c)
    (hl : l ≠ "") (he : TuringCommand.parse l = .error e) :
    ∀ d : PyDict, parseLines (pre ++ l :: post) d = .error e := by
  induction pre with
  | nil =>
    intro d
    rw [List.nil_append, parseLines,
      if_pos (fun h0 => hl ((string_length_eq_zero l).mp h0)), he]
  | cons p rest ih =>
    intro d
    rw [List.cons_append, parseLines]
    by_cases hp0 : p.length = 0
    · rw [if_neg (by omega)]
      exact ih (fun q hq => hpre q (List.mem_cons_of_mem p hq)) d
    · rw [if_pos hp0]
      rcases hpre p (List.mem_cons_self p rest) with hp | ⟨c, hc⟩
      · exact absurd ((string_length_eq_zero p).mpr hp) hp0
      · rw [hc]
        exact ih (fun q hq => hpre q (List.mem_cons_of_mem p hq)) _

/-- Modelled from the spec: the sequence of transitions contributed by
the non-blank lines of a program text, in order. -/
def lineCommands (ls : List String) : List TuringCommand :=
  ls.filterMap (fun l => if l = "" then none else (TuringCommand.parse l).toOption)

/-- Modelled from the spec: the transition of the last rule in `cs`
whose `(from_state, from_symbol)` key equals `k`, if any — the
later-occurrence-wins table of the spec. -/
def lastRuleFor (cs : List TuringCommand) (k : String × String) : Option TuringCommand :=
  match cs with
  | [] => none
  | c :: rest =>
    match lastRuleFor rest k with
    | some c' => some c'
    | none => if (c.inp_state, c.inp_symbol) = k then some c else none

/-- When every non-blank line parses, `parseLines` succeeds and the
resulting lookup is last-rule-wins over the parsed lines, falling back
to the accumulator table. -/
theorem parseLines_ok (ls : List String)
    (h : ∀ l ∈ ls, l ≠ "" → ∃ c, TuringCommand.parse l = .ok c) :
    ∀ d : PyDict, ∃ d', parseLines ls d = .ok d' ∧ ∀ k, dictGet d' k =
      (match lastRuleFor (lineCommands ls) k with
       | some c => some c
       | none => dictGet d k) := by
  induction ls with
  | nil =>
    intro d
    exact ⟨d, rfl, fun k => rfl⟩
  | cons l rest ih =>
    intro d
    by_cases hl : l = ""
    · subst hl
      rw [parseLines, if_neg (by simp)]
      obtain ⟨d', hd', hchar⟩ := ih (fun q hq => h q (List.mem_cons_of_mem _ hq)) d
      refine ⟨d', hd', fun k => ?_⟩
      rw [hchar k]
      have : lineCommands ("" :: rest) = lineCommands rest := by
        simp [lineCommands]
      rw [this]
    · obtain ⟨c, hc⟩ := h l (List.mem_cons_self l rest) hl
      rw [parseLines, if_pos (fun h0 => hl ((string_length_eq_zero l).mp h0)), hc]
      obtain ⟨d', hd', hchar⟩ :=
        ih (fun q hq => h q (List.mem_cons_of_mem _ hq))
          (dictInsert d (c.inp_state, c.inp_symbol) c)
      refine ⟨d', hd', fun k => ?_⟩
      rw [hchar k]
      have hlc : lineCommands (l :: rest) = c :: lineCommands rest := by
        simp [lineCommands, List.filterMap_cons, hl, hc, Except.toOption]
      rw [hlc, lastRuleFor]
      rcases hlast : lastRuleFor (lineCommands rest) k with _ | c'
      · simp only [dictInsert, dictGet_append]
        by_cases hk : (c.inp_state, c.inp_symbol) = k
        · rw [if_pos hk, if_pos hk]
        · rw [if_neg hk, if_neg hk]
      · rfl

/-- The assert in `execute_command` only lets states through that
satisfy the bounds invariant. -/
theorem checkInv_ok (ts ts' : TuringState) (h : checkInv ts = .ok ts') :
    BoundsInv ts' := by
  rw [checkInv] at h
  split at h
  · injection h with h
    rw [← h]
    assumption
  · exact absurd h (by simp)

/-- Any state returned by `execute_command` satisfies the bounds
invariant, since it passed the final assert. -/
theorem execute_command_ok_inv (ts ts' : TuringState) (c : TuringCommand)
    (h : ts.execute_command c = .ok ts') : BoundsInv ts' := by
  rw [TuringState.execute_command] at h
  dsimp only at h
  repeat' split at h
  all_goals first
    | exact checkInv_ok _ _ h
    | injection h

/-- C1: from any execution state satisfying the bounds invariant,
applying a transition whose precondition holds (matching current state
and symbol under the head, with the transition validity invariant)
succeeds and re-establishes `0 <= position + offset < length tape`. -/
theorem execute_command_preserves_bounds (ts : TuringState) (c : TuringCommand)
    (hInv : BoundsInv ts) (hst : ts.state = c.inp_state)
    (hsy : ts.symbol = some c.inp_symbol) (hv : c.Valid) :
    ∃ ts', ts.execute_command c = .ok ts' ∧ BoundsInv ts' := by
  rcases execute_command_ok ts c hInv hst hsy hv.2.2 with
    ⟨-, hok⟩ | ⟨-, hok⟩ | ⟨-, -, hok⟩ <;>
    exact ⟨_, hok, execute_command_ok_inv _ _ _ hok⟩

/-- Witness for C1 at the second doctest of `execute_command`: tape
`["0", "1"]`, head at cell `0`, a left-moving command. -/
theorem execute_command_preserves_bounds_witness :
    ∃ ts', (TuringState.mk ["0", "1"] 0 0 "Q1").execute_command
      (TuringCommand.mk "Q1" "0" "Q2" "0" (-1)) = .ok ts' ∧ BoundsInv ts' :=
  execute_command_preserves_bounds (TuringState.mk ["0", "1"] 0 0 "Q1")
    (TuringCommand.mk "Q1" "0" "Q2" "0" (-1))
    (by decide) (by decide) (by decide) (by decide)

/-- C2: growth behaviour of `execute_command` under the bounds
invariant and a matching, valid transition.  Moving `L` from the
leftmost physical cell prepends exactly one blank and bumps the offset
by one, keeping the just-written symbol at its logical position; moving
`R` from the rightmost physical cell appends exactly one blank without
touching the offset; in every other case tape length and offset are
unchanged. -/
theorem execute_command_growth (ts : TuringState) (c : TuringCommand)
    (hInv : BoundsInv ts) (hst : ts.state = c.inp_state)
    (hsy : ts.symbol = some c.inp_symbol) (hv : c.Valid) :
    (c.ret_move = L → ts.position + ts.offset = 0 →
      ∃ ts', ts.execute_command c = .ok ts' ∧
        ts'.tape = EMPTY :: ts.tape.set (ts.position + ts.offset).toNat c.ret_symbol ∧
        ts'.offset = ts.offset + 1 ∧
        ts'.tape.length = ts.tape.length + 1 ∧
        pyGet ts'.tape (ts.position + ts'.offset) = some c.ret_symbol) ∧
    (c.ret_move = R → ts.position + ts.offset = (ts.tape.length : Int) - 1 →
      ∃ ts', ts.execute_command c = .ok ts' ∧
        ts'.tape = ts.tape.set (ts.position + ts.offset).toNat c.ret_symbol ++ [EMPTY] ∧
        ts'.offset = ts.offset ∧
        ts'.tape.length = ts.tape.length + 1) ∧
    (¬(c.ret_move = L ∧ ts.position + ts.offset = 0) →
      ¬(c.ret_move = R ∧ ts.position + ts.offset = (ts.tape.length : Int) - 1) →
      ∃ ts', ts.execute_command c = .ok ts' ∧
        ts'.tape.length = ts.tape.length ∧ ts'.offset = ts.offset) := by
  obtain ⟨h0, h1⟩ := hInv
  have hm' : c.ret_move = -1 ∨ c.ret_move = 1 ∨ c.ret_move = 0 := by
    simpa [L, R, S] using hv.2.2
  refine ⟨?_, ?_, ?_⟩
  · intro hL hidx
    rw [L] at hL
    rcases execute_command_ok ts c ⟨h0, h1⟩ hst hsy hv.2.2 with
      ⟨hc, hok⟩ | ⟨hc, hok⟩ | ⟨hc1, hc2, hok⟩
    · refine ⟨_, hok, rfl, rfl, by simp [List.length_set], ?_⟩
      dsimp only
      have hpos : ts.position + (ts.offset + 1) = 1 := by omega
      rw [hpos, hidx, pyGet]
      rw [if_pos (by norm_num : (0 : Int) ≤ 1)]
      rw [show ((1 : Int)).toNat = 1 from rfl, show ((0 : Int)).toNat = 0 from rfl]
      rw [List.get?_eq_getElem?, List.getElem?_cons_succ]
      exact List.getElem?_set_self (by omega)
    · exfalso
      omega
    · exfalso
      omega
  · intro hR hidx
    rw [R] at hR
    rcases execute_command_ok ts c ⟨h0, h1⟩ hst hsy hv.2.2 with
      ⟨hc, hok⟩ | ⟨hc, hok⟩ | ⟨hc1, hc2, hok⟩
    · exfalso
      omega
    · exact ⟨_, hok, rfl, rfl, by simp [List.length_set]⟩
    · exfalso
      omega
  · intro hnL hnR
    rw [L] at hnL
    rw [R] at hnR
    rcases execute_command_ok ts c ⟨h0, h1⟩ hst hsy hv.2.2 with
      ⟨hc, hok⟩ | ⟨hc, hok⟩ | ⟨hc1, hc2, hok⟩
    · exfalso
      omega
    · exfalso
      omega
    · exact ⟨_, hok, by simp [List.length_set], rfl⟩

/-- Witness for C2 at the second doctest of `execute_command`: a left
move from the leftmost cell of `["0", "1"]` grows the tape to
`["b", "0", "1"]` and bumps the offset to `1`. -/
theorem execute_command_growth_witness :
    ∃ ts', (TuringState.mk ["0", "1"] 0 0 "Q1").execute_command
      (TuringCommand.mk "Q1" "0" "Q2" "0" (-1)) = .ok ts' ∧
      ts'.tape = ["b", "0", "1"] ∧ ts'.offset = 1 := by
  obtain ⟨ts', hok, htape, hoff, -, -⟩ :=
    (execute_command_growth (TuringState.mk ["0", "1"] 0 0 "Q1")
      (TuringCommand.mk "Q1" "0" "Q2" "0" (-1))
      (by decide) (by decide) (by decide) (by decide)).1 (by decide) (by decide)
  refine ⟨ts', hok, ?_, ?_⟩
  · rw [htape]
    decide
  · rw [hoff]
    decide

/-- C3: on a well-formed program table and a state satisfying the
bounds invariant, `single_step` returns `false` exactly when the table
has no entry for `(current state, symbol under the head)`; in that case
the state is returned unchanged, and when an entry exists the found
command is executed and `true` is returned. -/
theorem single_step_halting (tm : TuringMachine) (ts : TuringState) (sym : String)
    (hWF : tm.WF) (hInv : BoundsInv ts) (hsy : ts.symbol = some sym) :
    (tm.single_step ts = .ok (ts, false) ↔ dictGet tm.programm (ts.state, sym) = none) ∧
    (∀ t, tm.single_step ts = .ok (t, false) → t = ts) ∧
    (∀ c, dictGet tm.programm (ts.state, sym) = some c →
      ∃ ts', ts.execute_command c = .ok ts' ∧ tm.single_step ts = .ok (ts', true)) := by
  refine ⟨⟨?_, ?_⟩, ?_, ?_⟩
  · intro h
    obtain ⟨-, sym', hsy', hd⟩ := single_step_false tm ts ts h
    rw [hsy] at hsy'
    injection hsy' with hsy'
    rw [hsy']
    exact hd
  · intro hd
    simp only [TuringMachine.single_step, hsy, hd]
  · intro t h
    exact (single_step_false tm ts t h).1
  · intro c hd
    exact single_step_found tm ts sym c hWF hInv hsy hd

/-- Witness for C3 on the one-rule example machine with tape `["1"]` in
state `Q0`. -/
theorem single_step_halting_witness :
    ∃ ts', (TuringState.mk ["1"] 0 0 "Q0").execute_command
      (TuringCommand.mk "Q0" "1" "Q1" "1" 0) = .ok ts' ∧
      exampleMachine.single_step (TuringState.mk ["1"] 0 0 "Q0") = .ok (ts', true) :=
  (single_step_halting exampleMachine (TuringState.mk ["1"] 0 0 "Q0") "1"
    (by decide) (by decide) (by decide)).2.2
    (TuringCommand.mk "Q0" "1" "Q1" "1" 0) (by decide)

/-- C4: `run` builds the initial state with head position and offset
both zero and the given start state, iterates `single_step` until it
answers `false`, returns exactly the final tape and state, and the
`debug_strength` argument never changes the returned value. -/
theorem run_contract (tm : TuringMachine) (tape : List String) (start_state : String)
    (d1 d2 : Int) (fuel : Nat) :
    tm.run tape start_state d1 fuel = tm.run tape start_state d2 fuel ∧
    tm.run tape start_state d1 fuel =
      (match runFuel tm (TuringState.mk tape 0 0 start_state) fuel with
       | some (.ok ts) => some (.ok (ts.tape, ts.state))
       | some (.error e) => some (.error e)
       | none => none) ∧
    (∀ p, tm.run tape start_state d1 fuel = some (.ok p) →
      ∃ ts', runFuel tm (TuringState.mk tape 0 0 start_state) fuel = some (.ok ts') ∧
        p = (ts'.tape, ts'.state) ∧ tm.single_step ts' = .ok (ts', false)) := by
  refine ⟨rfl, rfl, ?_⟩
  intro p h
  rw [TuringMachine.run] at h
  rcases hr : runFuel tm (TuringState.mk tape 0 0 start_state) fuel with _ | r
  · rw [hr] at h
    exact absurd h (by simp)
  · rcases r with e | ts'
    · simp only [hr] at h
      exact absurd h (by simp)
    · simp only [hr] at h
      injection h with h
      injection h with h
      exact ⟨ts', rfl, h.symm, runFuel_halt tm _ ts' fuel hr⟩

/-- Witness for C4 on the one-rule example machine: two steps of fuel
suffice, and the run halts on tape `["1"]` in state `Q1`. -/
theorem run_contract_witness :
    ∃ ts', runFuel exampleMachine (TuringState.mk ["1"] 0 0 "Q0") 3 = some (.ok ts') ∧
      ((["1"] : List String), "Q1") = (ts'.tape, ts'.state) ∧
      exampleMachine.single_step ts' = .ok (ts', false) :=
  (run_contract exampleMachine ["1"] "Q0" 0 7 3).2.2 (["1"], "Q1") (by decide)

/-- C5: determinism of `run` — whenever two runs from the same program,
tape and start state both halt normally, they return the same final
tape and final state, independently of trace level and fuel. -/
theorem run_deterministic (tm : TuringMachine) (tape : List String) (start_state : String)
    (d1 d2 : Int) (n1 n2 : Nat) (p1 p2 : List String × String)
    (h1 : tm.run tape start_state d1 n1 = some (.ok p1))
    (h2 : tm.run tape start_state d2 n2 = some (.ok p2)) :
    p1 = p2 := by
  rw [TuringMachine.run] at h1 h2
  rcases hr1 : runFuel tm (TuringState.mk tape 0 0 start_state) n1 with _ | r1
  · rw [hr1] at h1
    exact absurd h1 (by simp)
  · rcases r1 with e | ts1
    · simp only [hr1] at h1
      exact absurd h1 (by simp)
    · simp only [hr1] at h1
      rcases hr2 : runFuel tm (TuringState.mk tape 0 0 start_state) n2 with _ | r2
      · rw [hr2] at h2
        exact absurd h2 (by simp)
      · rcases r2 with e | ts2
        · simp only [hr2] at h2
          exact absurd h2 (by simp)
        · simp only [hr2] at h2
          have hm1 := runFuel_mono tm _ n1 (max n1 n2) _ (Nat.le_max_left n1 n2) hr1
          have hm2 := runFuel_mono tm _ n2 (max n1 n2) _ (Nat.le_max_right n1 n2) hr2
          rw [hm1] at hm2
          injection hm2 with hm2
          injection hm2 with hm2
          injection h1 with h1
          injection h2 with h2
          injection h1 with h1
          injection h2 with h2
          rw [← h1, ← h2, hm2]

/-- Witness for C5: the example machine run with different trace levels
and fuels produces the same halt result. -/
theorem run_deterministic_witness :
    ((["1"] : List String), "Q1") = ((["1"] : List String), "Q1") :=
  run_deterministic exampleMachine ["1"] "Q0" 0 7 3 5 (["1"], "Q1") (["1"], "Q1")
    (by decide) (by decide)

/-- C6 counterexample: the three-field line `"Q0 0 Q1"` makes
`TuringMachine.parse` fail with Python's generic unpack error, whose
message does not contain the offending line (and names no token or line
number), contradicting the claim that every parse error identifies the
offending token and includes the line. -/
theorem parse_error_message_counterexample :
    TuringMachine.parse "Q0 0 Q1" = .error (unpackMsg 3) ∧
    ¬ ("Q0 0 Q1".toList <:+: (unpackMsg 3).toList) := by
  constructor
  · decide
  · decide

/-- C6 amended: parsing fails at the first malformed non-blank line
with that line's error and produces no table; for an unrecognized move
code the message does identify the offending token and contain the
line, while a wrong field count yields only Python's unpack message. -/
theorem parse_first_error_amended :
    (∀ text pre l post e, pySplit text '\n' = pre ++ l :: post →
      (∀ p ∈ pre, p = "" ∨ ∃ c, TuringCommand.parse p = .ok c) →
      l ≠ "" → TuringCommand.parse l = .error e →
      TuringMachine.parse text = .error e) ∧
    (∀ f1 f2 f3 f4 m line, pySplit line ' ' = [f1, f2, f3, f4, m] →
      m ≠ "L" → m ≠ "R" → m ≠ "S" →
      TuringCommand.parse line = .error (moveErrorMsg m line) ∧
      (m.toList <:+: (moveErrorMsg m line).toList) ∧
      (line.toList <:+: (moveErrorMsg m line).toList)) := by
  constructor
  · intro text pre l post e hsplit hpre hl he
    rw [TuringMachine.parse, hsplit, parseLines_first_error pre l post e hpre hl he]
  · intro f1 f2 f3 f4 m line hsp hmL hmR hmS
    refine ⟨?_, ?_, ?_⟩
    · simp only [TuringCommand.parse, hsp]
    · refine ⟨("The move of a command needs to be saved as either \x27L\x27, \x27R\x27 or \x27S\x27, " ++
        "but tried to parse \x27").toList, ("\x27 in command \x27" ++ line ++ "\x27.").toList, ?_⟩
      simp [moveErrorMsg, String.toList]
    · refine ⟨("The move of a command needs to be saved as either \x27L\x27, \x27R\x27 or \x27S\x27, " ++
        "but tried to parse \x27" ++ m ++ "\x27 in command \x27").toList, ("\x27.").toList, ?_⟩
      simp [moveErrorMsg, String.toList]

/-- Witness for the amended C6: the illegal move code `X` in the line
`"Q0 0 Q1 1 X"` aborts the whole parse with the move error message. -/
theorem parse_first_error_amended_witness :
    TuringMachine.parse "Q0 0 Q1 1 X" = .error (moveErrorMsg "X" "Q0 0 Q1 1 X") :=
  parse_first_error_amended.1 "Q0 0 Q1 1 X" [] "Q0 0 Q1 1 X" []
    (moveErrorMsg "X" "Q0 0 Q1 1 X") (by decide) (by simp) (by decide) (by decide)

/-- C7: on a syntactically valid program text, `TuringMachine.parse`
succeeds, blank lines contribute nothing, every non-blank line becomes
one command keyed by `(inp_state, inp_symbol)`, and on duplicate keys
the later line silently wins. -/
theorem parse_table_semantics (text : String)
    (h : ∀ l ∈ pySplit text '\n', l ≠ "" → ∃ c, TuringCommand.parse l = .ok c) :
    ∃ tm, TuringMachine.parse text = .ok tm ∧
      ∀ k, dictGet tm.programm k = lastRuleFor (lineCommands (pySplit text '\n')) k := by
  obtain ⟨d', hd', hchar⟩ := parseLines_ok (pySplit text '\n') h []
  refine ⟨⟨d'⟩, ?_, fun k => ?_⟩
  · rw [TuringMachine.parse, hd']
  · rw [hchar k]
    rcases hx : lastRuleFor (lineCommands (pySplit text '\n')) k with _ | c
    · simp only [hx]
      rfl
    · simp only [hx]

/-- Witness for C7 on a two-rule text with a duplicate key and a blank
line in between. -/
theorem parse_table_semantics_witness :
    ∃ tm, TuringMachine.parse "Q0 0 Q1 1 L\n\nQ0 0 Q2 0 R" = .ok tm ∧
      ∀ k, dictGet tm.programm k =
        lastRuleFor (lineCommands (pySplit "Q0 0 Q1 1 L\n\nQ0 0 Q2 0 R" '\n')) k := by
  apply parse_table_semantics
  intro l hl hne
  have hsp : pySplit "Q0 0 Q1 1 L\n\nQ0 0 Q2 0 R" '\n' =
      ["Q0 0 Q1 1 L", "", "Q0 0 Q2 0 R"] := by decide
  rw [hsp] at hl
  simp only [List.mem_cons, List.not_mem_nil, or_false] at hl
  rcases hl with rfl | rfl | rfl
  · exact ⟨TuringCommand.mk "Q0" "0" "Q1" "1" (-1), by decide⟩
  · exact absurd rfl hne
  · exact ⟨TuringCommand.mk "Q0" "0" "Q2" "0" 1, by decide⟩

/-- C8: constructing a `TuringCommand` succeeds exactly when both
symbols have length one and the move is `L`, `R` or `S`; a successful
construction carries exactly the given fields, and any `from_symbol`
of the wrong length — `"ab"` in particular — is rejected with a
`ValueError`. -/
theorem mkCommand_validation (q1 b q2 d : String) (m : Int) :
    ((∃ c, mkCommand q1 b q2 d m = .ok c) ↔
      (b.length = 1 ∧ d.length = 1 ∧ (m = L ∨ m = R ∨ m = S))) ∧
    (∀ c, mkCommand q1 b q2 d m = .ok c → c = TuringCommand.mk q1 b q2 d m) ∧
    (∀ s t u : String, ∀ m' : Int, ∃ msg, mkCommand s "ab" t u m' = .error msg) := by
  refine ⟨⟨?_, ?_⟩, ?_, ?_⟩
  · rintro ⟨c, hc⟩
    rw [mkCommand] at hc
    by_cases hb : b.length = 1
    · rw [if_neg (by omega)] at hc
      by_cases hd : d.length = 1
      · rw [if_neg (by omega)] at hc
        by_cases hm : m ∈ [L, R, S]
        · refine ⟨hb, hd, ?_⟩
          simpa using hm
        · rw [if_neg hm] at hc
          exact absurd hc (by simp)
      · rw [if_pos (by omega)] at hc
        exact absurd hc (by simp)
    · rw [if_pos (by omega)] at hc
      exact absurd hc (by simp)
  · rintro ⟨hb, hd, hm⟩
    refine ⟨TuringCommand.mk q1 b q2 d m, ?_⟩
    rw [mkCommand, if_neg (by omega), if_neg (by omega),
      if_pos (by rcases hm with h | h | h <;> simp [h])]
  · intro c hc
    rw [mkCommand] at hc
    split at hc
    · exact absurd hc (by simp)
    · split at hc
      · exact absurd hc (by simp)
      · split at hc
        · injection hc with hc
          exact hc.symm
        · exact absurd hc (by simp)
  · intro s t u m'
    rw [mkCommand, if_pos (by decide)]
    exact ⟨_, rfl⟩

/-- Witness for C8 at the spec's own example: `from_symbol = "ab"` is
rejected. -/
theorem mkCommand_validation_witness :
    ∃ msg, mkCommand "Q0" "ab" "Q1" "c" L = .error msg :=
  (mkCommand_validation "Q0" "x" "Q1" "y" L).2.2 "Q0" "Q1" "c" L

/-- C9: on a well-formed program table, any command `single_step` finds
satisfies the `execute_command` precondition, and neither `single_step`
nor `run` can ever surface a state-mismatch or symbol-mismatch error. -/
theorem mismatch_unreachable (tm : TuringMachine) (hWF : tm.WF) :
    (∀ (ts : TuringState) (sym : String) (c : TuringCommand), ts.symbol = some sym →
      dictGet tm.programm (ts.state, sym) = some c →
      c.inp_state = ts.state ∧ c.inp_symbol = sym) ∧
    (∀ (ts : TuringState) (e : RunErr), tm.single_step ts = .error e → e.isMismatch = false) ∧
    (∀ (tape : List String) (start_state : String) (d : Int) (n : Nat) (e : RunErr),
      tm.run tape start_state d n = some (.error e) → e.isMismatch = false) := by
  refine ⟨?_, ?_, ?_⟩
  · intro ts sym c hsy hd
    obtain ⟨h1, h2, -⟩ := hWF ((ts.state, sym), c) (dictGet_mem _ _ _ hd)
    exact ⟨h1, h2⟩
  · intro ts e h
    rcases single_step_error_classify tm ts e hWF h with h | h <;> rw [h] <;> rfl
  · intro tape start_state d n e h
    rw [TuringMachine.run] at h
    rcases hr : runFuel tm (TuringState.mk tape 0 0 start_state) n with _ | r
    · rw [hr] at h
      exact absurd h (by simp)
    · rcases r with e' | ts'
      · simp only [hr] at h
        injection h with h
        injection h with h
        rw [← h]
        rcases runFuel_error_classify tm _ n e' hWF hr with h2 | h2 <;> rw [h2] <;> rfl
      · simp only [hr] at h
        exact absurd h (by simp)

/-- Witness for C9: the example machine on an empty tape raises an
`IndexError`, which is not a mismatch error. -/
theorem mismatch_unreachable_witness :
    RunErr.isMismatch .indexError = false :=
  (mismatch_unreachable exampleMachine (by decide)).2.1
    (TuringState.mk [] 0 0 "Q0") .indexError (by decide)

/-- C10: on the empty initial tape the bounds invariant already fails
on the freshly built execution state, and `run` (through the very first
symbol read) surfaces an `IndexError` instead of halting normally, for
every machine, start state, trace level and positive fuel. -/
theorem run_empty_tape (tm : TuringMachine) (start_state : String) (d : Int) (n : Nat) :
    ¬ BoundsInv (TuringState.mk [] 0 0 start_state) ∧
    tm.run [] start_state d (n + 1) = some (.error .indexError) := by
  constructor
  · rintro ⟨-, h2⟩
    simp only [List.length_nil] at h2
    omega
  · have h1 : tm.single_step (TuringState.mk [] 0 0 start_state) = .error .indexError := by
      rw [TuringMachine.single_step]
      rw [show (TuringState.mk [] 0 0 start_state).symbol = none from rfl]
    have h2 : runFuel tm (TuringState.mk [] 0 0 start_state) (n + 1) =
        some (.error .indexError) := by
      rw [runFuel, h1]
    rw [TuringMachine.run, h2]
